import Mathlib

/-!
Shallow embedding of the Mercury Evolution heat/relevance engine
(`src/evolution-api.ts`) and proofs of the specification claims.

JavaScript numbers are modelled as `ℚ` (the scores, heats and token
budgets manipulated here are exact decimal fractions), timestamps as `ℤ`,
strings as Lean `String` (the inputs of interest are ASCII, where JS
UTF-16 semantics and Lean codepoint semantics agree).
-/

namespace Mercury

/-- Model of JS `String.prototype.toLowerCase` (ASCII range, which is all
the classifier keywords use; `\w` in JS regexes is ASCII-only as well). -/
def toLowerStr (s : String) : String :=
  String.mk (s.data.map Char.toLower)

/-- One DP row update of the Levenshtein matrix from `levenshteinDistance`:
walking `str1`, carrying the cell to the left (`left`) and the remaining
cells of the previous row starting at the diagonal position. -/
def levNextRow (c2 : Char) : List Char → ℕ → List ℕ → List ℕ
  | [], _, _ => []
  | c1 :: cs, left, diag :: up :: rest =>
    let cell := if c2 = c1 then diag else 1 + min diag (min left up)
    cell :: levNextRow c2 cs cell (up :: rest)
  | _ :: _, _, _ => []

/-- `levenshteinDistance(str1, str2)` from the source: the standard
row-by-row dynamic program; `matrix[i][j]` is the distance between the
first `i` chars of `str2` and the first `j` chars of `str1`, and the
result is `matrix[str2.length][str1.length]`. -/
def levenshteinDistance (str1 str2 : List Char) : ℕ :=
  let row0 := List.range (str1.length + 1)
  let final := str2.foldl
    (fun st c2 =>
      let i := st.2 + 1
      (i :: levNextRow c2 str1 i st.1, i))
    (row0, 0)
  final.1.getLastD 0

/-- `similarity(a, b)` from the source: `(maxLen − editDistance) / maxLen`
over the lowercased strings, `1.0` when both are empty. -/
def similarity (a b : String) : ℚ :=
  let longerLength := max a.length b.length
  if longerLength = 0 then 1
  else
    let editDistance := levenshteinDistance (toLowerStr a).data (toLowerStr b).data
    ((longerLength : ℚ) - (editDistance : ℚ)) / (longerLength : ℚ)

/-- JS word characters (`\w` = `[A-Za-z0-9_]`), which determine the `\b`
boundaries of the keyword regexes. -/
def isWordChar (c : Char) : Bool :=
  c.isAlphanum || c == '_'

/-- The maximal word-character runs of a string.  A regex of the form
`\b(w1|w2|...)\b` where every `wi` consists solely of word characters
matches a string exactly when one of these runs equals some `wi`. -/
def wordTokens (s : String) : List String :=
  ((s.data.splitOnP (fun c => !isWordChar c)).map String.mk).filter
    (fun t => !(t == ""))

/-- Whether the regex `\b(kw1|kw2|...)\b` matches `s` (for all-word-char
keywords: some maximal word run of `s` is one of the keywords). -/
def matchesAny (kws : List String) (s : String) : Bool :=
  (wordTokens s).any (fun t => kws.contains t)

def debugKeywords : List String :=
  ["debug", "fix", "error", "issue", "problem", "bug"]

def implementationKeywords : List String :=
  ["create", "build", "implement", "develop", "make"]

def researchKeywords : List String :=
  ["analyze", "research", "explore", "investigate", "find", "learn"]

def documentationKeywords : List String :=
  ["document", "explain", "describe", "write"]

def planningKeywords : List String :=
  ["plan", "design", "architect", "structure"]

/-- `detectIntent(input)` from the source: lowercase the input and test
the five category patterns in order, first match wins, else `general`. -/
def detectIntent (input : String) : String :=
  let lowered := toLowerStr input
  if matchesAny debugKeywords lowered then "debug"
  else if matchesAny implementationKeywords lowered then "implementation"
  else if matchesAny researchKeywords lowered then "research"
  else if matchesAny documentationKeywords lowered then "documentation"
  else if matchesAny planningKeywords lowered then "planning"
  else "general"

/-- The five category patterns of `detectIntent` in their source order,
used to state the first-match-wins property. -/
def intentPatterns : List (String × List String) :=
  [("debug", debugKeywords),
   ("implementation", implementationKeywords),
   ("research", researchKeywords),
   ("documentation", documentationKeywords),
   ("planning", planningKeywords)]

def questionKeywords : List String :=
  ["how", "what", "why", "when", "where", "who"]

def problemSolvingKeywords : List String :=
  ["debug", "fix", "error", "issue", "problem"]

def creationKeywords : List String :=
  ["create", "build", "implement", "develop"]

def researchSignalKeywords : List String :=
  ["analyze", "research", "explore", "investigate"]

/-- The four `signals.push` checks of `analyzeIntent`, in source order
(the `/i` flag is modelled by matching on the lowercased input, the
keywords being lowercase). -/
def analyzeSignals (input : String) : List String :=
  let l := toLowerStr input
  (if matchesAny questionKeywords l then ["question"] else [])
    ++ (if matchesAny problemSolvingKeywords l then ["problem-solving"] else [])
    ++ (if matchesAny creationKeywords l then ["creation"] else [])
    ++ (if matchesAny researchSignalKeywords l then ["research"] else [])

/-- The per-category keyword sets of `calculateConfidence` (broader than
the `detectIntent` patterns); an intent outside the table has no pattern. -/
def confidenceKeywords : String → Option (List String)
  | "debug" =>
    some ["debug", "fix", "error", "issue", "problem", "bug", "broken", "fail"]
  | "implementation" =>
    some ["create", "build", "implement", "develop", "make", "code", "program"]
  | "research" =>
    some ["analyze", "research", "explore", "investigate", "find", "learn",
          "what", "how", "why"]
  | "documentation" =>
    some ["document", "explain", "describe", "write", "summarize", "outline"]
  | "planning" =>
    some ["plan", "design", "architect", "structure", "organize", "strategy"]
  | _ => none

/-- `calculateConfidence(input, intent)` from the source: count the
global case-insensitive keyword matches; `min(0.5 + 0.1·count, 0.95)`,
`0.5` when there is no pattern or no match. -/
def calculateConfidence (input intent : String) : ℚ :=
  match confidenceKeywords intent with
  | none => 1/2
  | some kws =>
    let matchCount :=
      ((wordTokens (toLowerStr input)).filter (fun t => kws.contains t)).length
    if matchCount = 0 then 1/2
    else min (1/2 + (matchCount : ℚ) * (1/10)) (95/100)

/-- `getAlternativeIntents(primary, input)` from the source: the
non-primary categories with confidence above 0.6, first two kept. -/
def getAlternativeIntents (primary input : String) : List String :=
  (((["debug", "implementation", "research", "documentation", "planning"].filter
      (fun i => !(i == primary))).filter
      (fun i => decide (calculateConfidence input i > 6/10))).take 2)

/-- Result of `analyzeIntent`. -/
structure IntentAnalysis where
  intent : String
  confidence : ℚ
  signals : List String
  alternatives : List String
  deriving Repr, DecidableEq

/-- `analyzeIntent(input)` from the source. -/
def analyzeIntent (input : String) : IntentAnalysis :=
  { intent := detectIntent input
    confidence := calculateConfidence input (detectIntent input)
    signals := analyzeSignals input
    alternatives := getAlternativeIntents (detectIntent input) input }

/-- A finalized knowledge path record (`pathData` built in `endTracking`);
the `metadata` object is flattened into the last two fields. -/
structure KnowledgePath where
  id : String
  sequence : List String
  intent : String
  timestamp : ℤ
  duration : ℤ
  success : ℚ
  heat : ℚ
  lastAccessed : ℤ
  accessCount : ℕ
  sessionId : String
  interactionCount : ℕ
  deriving Repr, DecidableEq

/-- A heat-map node record. -/
structure Node where
  heat : ℚ
  lastAccessed : ℤ
  accessCount : ℕ
  avgDwellTime : ℚ
  deriving Repr, DecidableEq

/-- A heat-map edge record. -/
structure Edge where
  «from» : String
  «to» : String
  heat : ℚ
  traversalCount : ℕ
  lastTraversed : ℤ
  deriving Repr, DecidableEq

/-- The persisted heat-map document (`HeatMapData`); nodes and edges are
key/record pair lists exactly as stored on disk.  The reserved `intents`
collection holds opaque values, modelled by `Unit`. -/
structure HeatMapData where
  paths : List KnowledgePath
  nodes : List (String × Node)
  edges : List (String × Edge)
  intents : List (String × Unit)
  lastMaintenance : ℤ
  version : String
  deriving Repr, DecidableEq

/-- An interaction entry of the live session. -/
structure Interaction where
  type : String
  path : String
  timestamp : ℤ
  deriving Repr, DecidableEq

/-- The live tracking session. -/
structure Session where
  id : String
  intent : String
  startTime : ℤ
  paths : List String
  interactions : List Interaction
  deriving Repr, DecidableEq

/-- The mutable state of `MercuryEvolutionAPI`: the `currentSession`
field plus the persisted heat-map document (reads are modelled as
returning the last written document). -/
structure ApiState where
  currentSession : Option Session
  heatMap : HeatMapData
  deriving Repr, DecidableEq

/-- A successfully parsed heat-map document, each field possibly absent
(`data.field || default` in the source). -/
structure RawHeatDoc where
  paths : Option (List KnowledgePath)
  nodes : Option (List (String × Node))
  edges : Option (List (String × Edge))
  intents : Option (List (String × Unit))
  lastMaintenance : Option ℤ
  version : Option String
  deriving Repr, DecidableEq

/-- `loadHeatMap()` from the source.  The read/parse outcome is passed in
as `readResult` (`none` models a missing, unreadable or corrupt document,
whose exception is caught); `now` models `Date.now()`.  JS `x || d`
defaulting also replaces a falsy `0` timestamp and `""` version. -/
def loadHeatMap (readResult : Option RawHeatDoc) (now : ℤ) : HeatMapData :=
  match readResult with
  | none =>
    { paths := [], nodes := [], edges := [], intents := []
      lastMaintenance := now, version := "1.0.0" }
  | some data =>
    { paths := data.paths.getD []
      nodes := data.nodes.getD []
      edges := data.edges.getD []
      intents := data.intents.getD []
      lastMaintenance :=
        match data.lastMaintenance with
        | none => now
        | some t => if t = 0 then now else t
      version :=
        match data.version with
        | none => "1.0.0"
        | some v => if v = "" then "1.0.0" else v }

/-- `updateNodeHeat(nodePath, increment)` restricted to its effect on the
`nodes` collection: update the first entry whose key matches (clamping
the heat at 1.0), or push a fresh entry with `heat = increment` at the
end.  `now` models `Date.now()`. -/
def updateNodeHeat (nodes : List (String × Node)) (nodePath : String)
    (increment : ℚ) (now : ℤ) : List (String × Node) :=
  match nodes with
  | [] =>
    [(nodePath, { heat := increment, lastAccessed := now, accessCount := 1
                  avgDwellTime := 0 })]
  | (k, node) :: rest =>
    if k = nodePath then
      (k, { node with heat := min 1 (node.heat + increment)
                      lastAccessed := now
                      accessCount := node.accessCount + 1 }) :: rest
    else (k, node) :: updateNodeHeat rest nodePath increment now

/-- `updateEdgeHeat(from, to, increment)` restricted to its effect on the
`edges` collection, analogous to `updateNodeHeat`. -/
def updateEdgeHeat (edges : List (String × Edge)) (f t : String)
    (increment : ℚ) (now : ℤ) : List (String × Edge) :=
  match edges with
  | [] =>
    [(f ++ "→" ++ t,
      { «from» := f, «to» := t, heat := increment
        traversalCount := 1, lastTraversed := now })]
  | (k, edge) :: rest =>
    if k = f ++ "→" ++ t then
      (k, { edge with heat := min 1 (edge.heat + increment)
                      lastTraversed := now
                      traversalCount := edge.traversalCount + 1 }) :: rest
    else (k, edge) :: updateEdgeHeat rest f t increment now

/-- `savePath(pathData)` from the source: push the record, then truncate
the list to its last 1000 entries when it exceeds 1000. -/
def savePath (hm : HeatMapData) (pathData : KnowledgePath) : HeatMapData :=
  let paths1 := hm.paths ++ [pathData]
  let paths2 :=
    if paths1.length > 1000 then paths1.drop (paths1.length - 1000) else paths1
  { hm with paths := paths2 }

/-- `startTracking(intent)` from the source: install a fresh session
(identifier `newId`, start time `now`, empty lists), unconditionally
replacing any current one, and return the session id. -/
def startTracking (st : ApiState) (intent : String) (newId : String)
    (now : ℤ) : ApiState × String :=
  let s : Session :=
    { id := newId, intent := intent, startTime := now
      paths := [], interactions := [] }
  ({ st with currentSession := some s }, newId)

/-- `recordStep(resourcePath, type)` from the source: fails when no
session is active; otherwise appends the step and interaction, updates
the node heat (increment 0.1) and, when this is not the first step, the
edge heat from the previous path. -/
def recordStep (st : ApiState) (resourcePath : String) (type : String)
    (now : ℤ) : Except String ApiState :=
  match st.currentSession with
  | none => .error "No active tracking session"
  | some s =>
    let s1 : Session :=
      { s with paths := s.paths ++ [resourcePath]
               interactions := s.interactions ++
                 [{ type := type, path := resourcePath, timestamp := now }] }
    let hm1 : HeatMapData :=
      { st.heatMap with
          nodes := updateNodeHeat st.heatMap.nodes resourcePath (1/10) now }
    let hm2 : HeatMapData :=
      if s1.paths.length > 1 then
        let prevPath := (s1.paths.get? (s1.paths.length - 2)).getD ""
        { hm1 with
            edges := updateEdgeHeat hm1.edges prevPath resourcePath (1/10) now }
      else hm1
    .ok { currentSession := some s1, heatMap := hm2 }

/-- The value returned by `endTracking`. -/
structure EndResult where
  sessionId : String
  pathLength : ℕ
  duration : ℤ
  heatUpdated : Bool
  deriving Repr, DecidableEq

/-- `endTracking(success)` from the source: fails when no session is
active; otherwise builds the `KnowledgePath` record (heat 1.0, access
count 1), appends it via `savePath`, clears the session and returns the
summary. -/
def endTracking (st : ApiState) (success : ℚ) (now : ℤ)
    (newId : String) : Except String (ApiState × EndResult) :=
  match st.currentSession with
  | none => .error "No active tracking session"
  | some s =>
    let duration := now - s.startTime
    let pathData : KnowledgePath :=
      { id := newId, sequence := s.paths, intent := s.intent
        timestamp := s.startTime, duration := duration, success := success
        heat := 1, lastAccessed := now, accessCount := 1
        sessionId := s.id, interactionCount := s.interactions.length }
    let hm := savePath st.heatMap pathData
    .ok ({ currentSession := none, heatMap := hm },
         { sessionId := s.id, pathLength := s.paths.length
           duration := duration, heatUpdated := true })

/-- The match-reason tags pushed by `findRelevantPaths` (the numeric
payloads of the `text_similarity_…` and `keyword_overlap_…` strings are
kept as exact values instead of formatted decimals). -/
inductive Reason where
  | exactIntentMatch
  | textSimilarity (score : ℚ)
  | keywordOverlap (count : ℕ)
  | categoryMatch
  deriving Repr, DecidableEq

/-- A path annotated by `findRelevantPaths` (the source spreads the path
record and adds `relevance` and `matchReasons`). -/
structure ScoredPath where
  path : KnowledgePath
  relevance : ℚ
  matchReasons : List Reason
  deriving Repr, DecidableEq

/-- `new Set(s.toLowerCase().split(' '))`: the distinct space-separated
words of the lowercased string (order is irrelevant to the scorer, which
only uses sizes and membership). -/
def wordSet (s : String) : List String :=
  (((toLowerStr s).data.splitOnP (fun c => c == ' ')).map String.mk).dedup

/-- Size of the intersection of the two word sets. -/
def overlapCount (a b : String) : ℕ :=
  ((wordSet a).filter (fun w => (wordSet b).contains w)).length

/-- The per-path body of the `findRelevantPaths` loop: the running
`(score, reasons)` pair through the four scoring branches. -/
def scorePath (primaryIntent input : String) (p : KnowledgePath) :
    ℚ × List Reason :=
  let score : ℚ := 0
  let reasons : List Reason := []
  let sr1 :=
    if p.intent = primaryIntent then
      (score + 1, reasons ++ [Reason.exactIntentMatch])
    else (score, reasons)
  let similarityScore := similarity input p.intent
  let sr2 :=
    if similarityScore > 3/10 then
      (sr1.1 + similarityScore * (8/10),
       sr1.2 ++ [Reason.textSimilarity similarityScore])
    else sr1
  let inputWords := wordSet input
  let pathWords := wordSet p.intent
  let overlap := (inputWords.filter (fun w => pathWords.contains w)).length
  let sr3 :=
    if overlap > 0 then
      (sr2.1 + ((overlap : ℚ) / ((max inputWords.length pathWords.length : ℕ) : ℚ)) * (6/10),
       sr2.2 ++ [Reason.keywordOverlap overlap])
    else sr2
  let analyzedPathIntent := detectIntent p.intent
  if primaryIntent ≠ "general" ∧ analyzedPathIntent = primaryIntent then
    (sr3.1 + 1/2, sr3.2 ++ [Reason.categoryMatch])
  else sr3

/-- The comparator of `results.sort((a, b) => b.relevance - a.relevance)`
as a relation: `a` may come before `b` when its relevance is at least
`b`'s (insertion sort under this relation is exactly the stable
descending sort that JS `Array.prototype.sort` performs). -/
def scoreDesc (a b : ScoredPath) : Prop :=
  b.relevance ≤ a.relevance

instance : DecidableRel scoreDesc :=
  fun a b => inferInstanceAs (Decidable (b.relevance ≤ a.relevance))

instance : IsTotal ScoredPath scoreDesc :=
  ⟨fun a b => le_total b.relevance a.relevance⟩

instance : IsTrans ScoredPath scoreDesc :=
  ⟨fun _ _ _ h1 h2 => le_trans h2 h1⟩

/-- One iteration of the `findRelevantPaths` loop: skip paths with
`success <= 0.5`, score the rest, push those meeting the 0.3 threshold
onto `results`. -/
def relStep (primaryIntent input : String) (acc : List ScoredPath)
    (p : KnowledgePath) : List ScoredPath :=
  if p.success ≤ 1/2 then acc
  else
    let sr := scorePath primaryIntent input p
    if sr.1 ≥ 3/10 then
      acc ++ [{ path := p, relevance := sr.1, matchReasons := sr.2 }]
    else acc

/-- `findRelevantPaths(analysis, originalInput, heatMap)` from the
source, as a function of `analysis.intent` (the only field it reads),
the raw input, and the stored path list. -/
def findRelevantPaths (primaryIntent input : String)
    (heatPaths : List KnowledgePath) : List ScoredPath :=
  (heatPaths.foldl (relStep primaryIntent input) []).insertionSort scoreDesc

/-- The composite relevance score exactly as the specification words it:
the SUM of the exact-intent contribution, the conditional similarity
contribution, the conditional keyword-overlap contribution and the
conditional category contribution. -/
def specScore (primaryIntent input : String) (p : KnowledgePath) : ℚ :=
  (if p.intent = primaryIntent then 1 else 0)
    + (if similarity input p.intent > 3/10 then
         (8/10) * similarity input p.intent
       else 0)
    + (if 0 < overlapCount input p.intent then
         (6/10) * ((overlapCount input p.intent : ℚ) /
           ((max (wordSet input).length (wordSet p.intent).length : ℕ) : ℚ))
       else 0)
    + (if primaryIntent ≠ "general" ∧ detectIntent p.intent = primaryIntent
       then 1/2 else 0)

/-- The reason annotations attached to a kept path. -/
def specReasons (primaryIntent input : String) (p : KnowledgePath) :
    List Reason :=
  (scorePath primaryIntent input p).2

/-- The ranking as the specification words it: keep exactly the stored
paths with `success > 0.5` and `specScore ≥ 0.3`, annotate each with its
score, and stably sort descending by score. -/
def specRank (primaryIntent input : String)
    (heatPaths : List KnowledgePath) : List ScoredPath :=
  ((heatPaths.filter
      (fun p => decide (1/2 < p.success) &&
                decide (3/10 ≤ specScore primaryIntent input p))).map
    (fun p =>
      { path := p, relevance := specScore primaryIntent input p
        matchReasons := specReasons primaryIntent input p })).insertionSort
    scoreDesc

/-- An entry of the loading plan; `path` is `sequence[0]`, which is
absent (`undefined`) for an empty sequence. -/
structure LoadedPath where
  path : Option String
  gradient : ℚ
  tokens : ℚ
  deriving Repr, DecidableEq

/-- The loop state of `calculateLoadingPlan`: the accumulator variables
plus a flag modelling that `break` has executed. -/
structure PlanState where
  loadedPaths : List LoadedPath
  totalTokens : ℚ
  broken : Bool
  deriving Repr, DecidableEq

/-- One iteration of the `calculateLoadingPlan` for-loop. -/
def planStep (maxTokens : ℚ) (st : PlanState) (p : ScoredPath) : PlanState :=
  if st.broken then st
  else
    let estimatedTokens : ℚ := (p.path.sequence.length : ℚ) * 500
    let st1 :=
      if st.totalTokens + estimatedTokens ≤ maxTokens then
        { st with
            loadedPaths := st.loadedPaths ++
              [{ path := p.path.sequence.head?, gradient := p.relevance
                 tokens := estimatedTokens }]
            totalTokens := st.totalTokens + estimatedTokens }
      else st
    if st1.totalTokens ≥ maxTokens * (8/10) then { st1 with broken := true }
    else st1

/-- `calculateLoadingPlan(paths, maxTokens)` from the source. -/
def calculateLoadingPlan (paths : List ScoredPath) (maxTokens : ℚ) :
    List LoadedPath :=
  (paths.foldl (planStep maxTokens)
    { loadedPaths := [], totalTokens := 0, broken := false }).loadedPaths

/-- The planner as the claim words it, with the running total explicit:
cost is `sequence.length × 500`; a path is included exactly when the
accumulated total plus its cost does not exceed `maxTokens`; iteration
stops as soon as the accumulated total reaches `0.8 × maxTokens`,
whether or not the last path was included. -/
def planSpec (maxTokens : ℚ) : List ScoredPath → ℚ → List LoadedPath
  | [], _ => []
  | p :: rest, total =>
    let est : ℚ := (p.path.sequence.length : ℚ) * 500
    if total + est ≤ maxTokens then
      let entry : LoadedPath :=
        { path := p.path.sequence.head?, gradient := p.relevance
          tokens := est }
      if maxTokens * (8/10) ≤ total + est then [entry]
      else entry :: planSpec maxTokens rest (total + est)
    else
      if maxTokens * (8/10) ≤ total then []
      else planSpec maxTokens rest total

/-- Total size of a loading plan, as summed by `evolveContext`. -/
def planTokens (plan : List LoadedPath) : ℚ :=
  (plan.map LoadedPath.tokens).sum

/-- A sequence of `updateNodeHeat` calls on one key, starting from an
empty node collection. -/
def applyNodeCalls (key : String) (calls : List (ℚ × ℤ)) :
    List (String × Node) :=
  calls.foldl (fun ns c => updateNodeHeat ns key c.1 c.2) []

/-- The heat recorded for a key, when present. -/
def nodeHeat (nodes : List (String × Node)) (key : String) : Option ℚ :=
  (nodes.find? (fun e => e.1 == key)).map (fun e => e.2.heat)

/-- The effect of one `updateNodeHeat` call on the node's heat alone:
`min(1.0, heat + increment)` on an existing node, a raw unclamped
`increment` on a fresh one. -/
def heatUpd (h : Option ℚ) (inc : ℚ) : Option ℚ :=
  some (match h with
        | some x => min 1 (x + inc)
        | none => inc)

/-- A heat map document with all collections empty. -/
def emptyHeatMap : HeatMapData :=
  { paths := [], nodes := [], edges := [], intents := []
    lastMaintenance := 0, version := "1.0.0" }

/-- A sample stored path record, used to instantiate universally
quantified theorems at concrete inputs. -/
def sampleKP : KnowledgePath :=
  { id := "p1", sequence := ["notes/a.md", "notes/b.md"]
    intent := "debug the tracker", timestamp := 0, duration := 10
    success := 9/10, heat := 1, lastAccessed := 10, accessCount := 1
    sessionId := "s1", interactionCount := 2 }

/-!  ### Helper lemmas  -/

theorem savePath_paths_eq (hm : HeatMapData) (p : KnowledgePath) :
    (savePath hm p).paths =
      (hm.paths ++ [p]).drop ((hm.paths ++ [p]).length - 1000) := by
  by_cases h : (hm.paths ++ [p]).length > 1000
  · simp only [savePath, if_pos h]
  · simp only [savePath, if_neg h]
    rw [Nat.sub_eq_zero_of_le (Nat.le_of_not_lt h), List.drop_zero]

theorem savePath_paths_length_le (hm : HeatMapData) (p : KnowledgePath) :
    ((savePath hm p).paths).length ≤ 1000 := by
  rw [savePath_paths_eq]
  simp only [List.length_drop, List.length_append, List.length_cons,
    List.length_nil]
  omega

theorem lastN_lastN_append {α : Type} (n : ℕ) (xs ys : List α) :
    ((xs.drop (xs.length - n) ++ ys).drop
        ((xs.drop (xs.length - n) ++ ys).length - n)) =
      (xs ++ ys).drop ((xs ++ ys).length - n) := by
  have hk : xs.length - n ≤ xs.length := Nat.sub_le _ _
  rw [← List.drop_append_of_le_length hk, List.drop_drop]
  congr 1
  simp only [List.length_drop, List.length_append]
  omega

theorem foldl_savePath_paths (l : List KnowledgePath) :
    ∀ hm : HeatMapData, hm.paths.length ≤ 1000 →
      (l.foldl savePath hm).paths =
        (hm.paths ++ l).drop ((hm.paths ++ l).length - 1000) := by
  induction l with
  | nil =>
    intro hm h
    simp [Nat.sub_eq_zero_of_le h]
  | cons p l ih =>
    intro hm h
    have := ih (savePath hm p) (savePath_paths_length_le hm p)
    rw [List.foldl_cons, this, savePath_paths_eq, lastN_lastN_append]
    simp

theorem getLast?_savePath (hm : HeatMapData) (p : KnowledgePath) :
    ((savePath hm p).paths).getLast? = some p := by
  rw [savePath_paths_eq]
  have hk : (hm.paths ++ [p]).length - 1000 ≤ hm.paths.length := by
    simp only [List.length_append, List.length_cons, List.length_nil]
    omega
  rw [List.drop_append_of_le_length hk, List.getLast?_concat]

/-!  ### Claim theorems  -/

/-- C7: `loadHeatMap` never surfaces a read failure: a missing,
unreadable or corrupt heat-map document (the caught-exception branch,
modelled by `readResult = none`) yields the default empty heat map —
empty `paths`, `nodes`, `edges` and `intents`, the current timestamp as
`lastMaintenance`, and version `"1.0.0"`. -/
theorem loadHeatMap_defaults_on_read_failure :
    ∀ now : ℤ,
      loadHeatMap none now =
        { paths := [], nodes := [], edges := [], intents := []
          lastMaintenance := now, version := "1.0.0" } :=
  fun _ => rfl

/-- C9: `startTracking` installs a fresh session (the given identifier,
empty `paths` and `interactions`) as the one live session, whatever
session the state held before — any in-progress session is discarded. -/
theorem startTracking_replaces_any_session :
    ∀ (st : ApiState) (intent newId : String) (now : ℤ),
      (startTracking st intent newId now).1.currentSession =
        some { id := newId, intent := intent, startTime := now
               paths := [], interactions := [] } :=
  fun _ _ _ _ => rfl

/-- C5: `recordStep` with no active session fails with the
no-active-session error, `endTracking` with no active session fails the
same way, and `endTracking` on an active session always clears the
session, so that a subsequent `recordStep` fails until another
`startTracking`. -/
theorem session_state_errors :
    (∀ (st : ApiState) (p t : String) (now : ℤ), st.currentSession = none →
      recordStep st p t now = .error "No active tracking session")
    ∧ (∀ (st : ApiState) (success : ℚ) (now : ℤ) (newId : String),
        st.currentSession = none →
          endTracking st success now newId =
            .error "No active tracking session")
    ∧ (∀ (st : ApiState) (s : Session) (success : ℚ) (now : ℤ)
        (newId : String), st.currentSession = some s →
          ∃ st2 r, endTracking st success now newId = .ok (st2, r)
            ∧ st2.currentSession = none
            ∧ ∀ (p t : String) (n : ℤ),
                recordStep st2 p t n = .error "No active tracking session") := by
  refine ⟨?_, ?_, ?_⟩
  · intro st p t now h
    simp [recordStep, h]
  · intro st success now newId h
    simp [endTracking, h]
  · intro st s success now newId h
    refine ⟨⟨none, savePath st.heatMap
        { id := newId, sequence := s.paths, intent := s.intent
          timestamp := s.startTime, duration := now - s.startTime
          success := success, heat := 1, lastAccessed := now
          accessCount := 1, sessionId := s.id
          interactionCount := s.interactions.length }⟩,
      ⟨s.id, s.paths.length, now - s.startTime, true⟩,
      ?_, rfl, fun p t n => rfl⟩
    simp [endTracking, h]

/-- C10: a session with zero recorded steps can be ended: after
`startTracking` with no intervening `recordStep`, `endTracking` returns
successfully with `pathLength = 0` and appends to the store a
`KnowledgePath` with empty `sequence`, `heat = 1.0` and
`accessCount = 1`. -/
theorem endTracking_empty_session :
    ∀ (st : ApiState) (intent id1 : String) (now1 : ℤ) (success : ℚ)
      (now2 : ℤ) (id2 : String),
      ∃ st2 r,
        endTracking (startTracking st intent id1 now1).1 success now2 id2 =
            .ok (st2, r)
        ∧ r.pathLength = 0
        ∧ st2.heatMap.paths.getLast? = some
            { id := id2, sequence := [], intent := intent, timestamp := now1
              duration := now2 - now1, success := success, heat := 1
              lastAccessed := now2, accessCount := 1, sessionId := id1
              interactionCount := 0 } := by
  intro st intent id1 now1 success now2 id2
  refine ⟨_, _, rfl, rfl, ?_⟩
  exact getLast?_savePath st.heatMap _

/-- C6: after any `savePath` the stored path list has at most 1000
records, and 1005 sequential `savePath` calls starting from an empty
store leave exactly the most recent 1000 records in order — the 5
oldest are evicted. -/
theorem savePath_bound_and_eviction :
    (∀ (hm : HeatMapData) (p : KnowledgePath),
        ((savePath hm p).paths).length ≤ 1000)
    ∧ ∀ l : List KnowledgePath, l.length = 1005 →
        (l.foldl savePath emptyHeatMap).paths = l.drop 5
        ∧ ((l.foldl savePath emptyHeatMap).paths).length = 1000 := by
  refine ⟨savePath_paths_length_le, ?_⟩
  intro l hl
  have h := foldl_savePath_paths l emptyHeatMap (by simp [emptyHeatMap])
  have h2 : (emptyHeatMap.paths ++ l) = l := by simp [emptyHeatMap]
  rw [h2] at h
  rw [h, hl]
  refine ⟨rfl, ?_⟩
  simp [hl]

/-- Witness for C6 at a concrete input: a list of 1005 copies of the
sample record. -/
theorem savePath_bound_and_eviction_witness :
    (List.replicate 1005 sampleKP).length = 1005 ∧
      ((List.replicate 1005 sampleKP).foldl savePath emptyHeatMap).paths =
        (List.replicate 1005 sampleKP).drop 5 :=
  ⟨by rw [List.length_replicate],
   (savePath_bound_and_eviction.2 _ (by rw [List.length_replicate])).1⟩

/-- Witness for C5 at concrete states: an idle state and a state holding
a live session. -/
theorem session_state_errors_witness :
    recordStep ⟨none, emptyHeatMap⟩ "notes/a.md" "note" 0 =
        .error "No active tracking session"
    ∧ endTracking ⟨none, emptyHeatMap⟩ 1 0 "id2" =
        .error "No active tracking session"
    ∧ ∃ st2 r,
        endTracking ⟨some ⟨"id1", "debug", 0, [], []⟩, emptyHeatMap⟩ 1 5 "id2"
            = .ok (st2, r)
          ∧ st2.currentSession = none
          ∧ ∀ (p t : String) (n : ℤ),
              recordStep st2 p t n = .error "No active tracking session" :=
  ⟨session_state_errors.1 ⟨none, emptyHeatMap⟩ "notes/a.md" "note" 0 rfl,
   session_state_errors.2.1 ⟨none, emptyHeatMap⟩ 1 0 "id2" rfl,
   session_state_errors.2.2 ⟨some ⟨"id1", "debug", 0, [], []⟩, emptyHeatMap⟩
     ⟨"id1", "debug", 0, [], []⟩ 1 5 "id2" rfl⟩

theorem planStep_of_broken (maxTokens : ℚ) (st : PlanState) (p : ScoredPath)
    (h : st.broken = true) : planStep maxTokens st p = st := by
  simp [planStep, h]

theorem foldl_planStep_broken (maxTokens : ℚ) :
    ∀ (paths : List ScoredPath) (st : PlanState), st.broken = true →
      paths.foldl (planStep maxTokens) st = st := by
  intro paths
  induction paths with
  | nil => intro st _; rfl
  | cons p rest ih =>
    intro st h
    rw [List.foldl_cons, planStep_of_broken maxTokens st p h]
    exact ih st h

theorem foldl_planStep_eq (maxTokens : ℚ) :
    ∀ (paths : List ScoredPath) (st : PlanState), st.broken = false →
      (paths.foldl (planStep maxTokens) st).loadedPaths =
        st.loadedPaths ++ planSpec maxTokens paths st.totalTokens := by
  intro paths
  induction paths with
  | nil => intro st _; simp [planSpec]
  | cons p rest ih =>
    intro st h
    rw [List.foldl_cons]
    by_cases hinc :
      st.totalTokens + (p.path.sequence.length : ℚ) * 500 ≤ maxTokens
    · by_cases hb : maxTokens * (8/10) ≤
        st.totalTokens + (p.path.sequence.length : ℚ) * 500
      · have hst : planStep maxTokens st p =
            ⟨st.loadedPaths ++ [⟨p.path.sequence.head?, p.relevance,
              (p.path.sequence.length : ℚ) * 500⟩],
             st.totalTokens + (p.path.sequence.length : ℚ) * 500, true⟩ := by
          simp [planStep, h, hinc, ge_iff_le, hb]
        rw [hst, foldl_planStep_broken maxTokens rest _ rfl]
        simp [planSpec, hinc, hb]
      · have hst : planStep maxTokens st p =
            ⟨st.loadedPaths ++ [⟨p.path.sequence.head?, p.relevance,
              (p.path.sequence.length : ℚ) * 500⟩],
             st.totalTokens + (p.path.sequence.length : ℚ) * 500, false⟩ := by
          simp [planStep, h, hinc, ge_iff_le, hb]
        rw [hst, ih _ rfl]
        simp [planSpec, hinc, hb]
    · by_cases hb : maxTokens * (8/10) ≤ st.totalTokens
      · have hst : planStep maxTokens st p =
            ⟨st.loadedPaths, st.totalTokens, true⟩ := by
          simp [planStep, h, hinc, ge_iff_le, hb]
        rw [hst, foldl_planStep_broken maxTokens rest _ rfl]
        simp [planSpec, hinc, hb]
      · have hst : planStep maxTokens st p = st := by
          simp [planStep, h, hinc, ge_iff_le, hb]
        rw [hst, ih st h]
        simp [planSpec, hinc, hb]

theorem calculateLoadingPlan_spec (paths : List ScoredPath) (maxTokens : ℚ) :
    calculateLoadingPlan paths maxTokens = planSpec maxTokens paths 0 := by
  unfold calculateLoadingPlan
  rw [foldl_planStep_eq maxTokens paths _ rfl]
  simp

/-- C2: `calculateLoadingPlan` follows the greedy budgeted iteration the
specification describes: cost is `sequence.length × 500`, a path is
included exactly when the running total plus its cost stays within
`maxTokens` (recording the sequence head, the relevance as gradient, and
the estimate), and iteration stops — whether or not the last path was
included — as soon as the running total reaches `0.8 × maxTokens`. -/
theorem loadingPlan_follows_greedy_spec :
    ∀ (paths : List ScoredPath) (maxTokens : ℚ),
      calculateLoadingPlan paths maxTokens = planSpec maxTokens paths 0 :=
  fun paths maxTokens => calculateLoadingPlan_spec paths maxTokens

theorem planSpec_tokens_bound (maxTokens : ℚ) :
    ∀ (paths : List ScoredPath) (total : ℚ), 0 ≤ total → total ≤ maxTokens →
      planTokens (planSpec maxTokens paths total) + total ≤ maxTokens := by
  intro paths
  induction paths with
  | nil =>
    intro total _ h1
    simpa [planSpec, planTokens] using h1
  | cons p rest ih =>
    intro total h0 h1
    have hest : (0 : ℚ) ≤ (p.path.sequence.length : ℚ) * 500 := by positivity
    by_cases hinc : total + (p.path.sequence.length : ℚ) * 500 ≤ maxTokens
    · by_cases hb : maxTokens * (8/10) ≤
        total + (p.path.sequence.length : ℚ) * 500
      · simp only [planSpec, if_pos hinc, if_pos hb]
        simp [planTokens]
        linarith
      · simp only [planSpec, if_pos hinc, if_neg hb]
        have := ih (total + (p.path.sequence.length : ℚ) * 500)
          (by linarith) hinc
        simp only [planTokens, List.map_cons, List.sum_cons] at this ⊢
        linarith
    · by_cases hb : maxTokens * (8/10) ≤ total
      · simp only [planSpec, if_neg hinc, if_pos hb]
        simpa [planTokens] using h1
      · simp only [planSpec, if_neg hinc, if_neg hb]
        exact ih total h0 h1

/-- Counterexample to C3 as stated: with a negative budget the planner
accepts nothing, and the empty plan's total of 0 already exceeds the
supplied `maxTokens`. -/
theorem planTokens_negative_budget_counterexample :
    ¬ planTokens (calculateLoadingPlan [] (-1)) ≤ -1 := by
  norm_num [calculateLoadingPlan, planTokens]

/-- C3 (amended): for every ranked list and every nonnegative
`maxTokens`, the accepted paths' token estimates sum to at most
`maxTokens`. -/
theorem planTokens_within_budget :
    ∀ (paths : List ScoredPath) (maxTokens : ℚ), 0 ≤ maxTokens →
      planTokens (calculateLoadingPlan paths maxTokens) ≤ maxTokens := by
  intro paths maxTokens h
  rw [calculateLoadingPlan_spec]
  have := planSpec_tokens_bound maxTokens paths 0 le_rfl h
  linarith

/-- Witness for C3 (amended) at a concrete input. -/
theorem planTokens_within_budget_witness :
    (0 : ℚ) ≤ 30000 ∧
      planTokens (calculateLoadingPlan [⟨sampleKP, 1, []⟩] 30000) ≤ 30000 :=
  ⟨by norm_num, planTokens_within_budget [⟨sampleKP, 1, []⟩] 30000 (by norm_num)⟩

theorem nodeHeat_updateNodeHeat (ns : List (String × Node)) (key : String)
    (inc : ℚ) (now : ℤ) :
    nodeHeat (updateNodeHeat ns key inc now) key =
      heatUpd (nodeHeat ns key) inc := by
  induction ns with
  | nil => simp [updateNodeHeat, nodeHeat, heatUpd, List.find?]
  | cons e rest ih =>
    obtain ⟨k, node⟩ := e
    by_cases h : k = key
    · subst h
      simp [updateNodeHeat, nodeHeat, heatUpd, List.find?]
    · have hb : (k == key) = false := by
        simp [h]
      simp only [updateNodeHeat, if_neg h]
      simp only [nodeHeat, List.find?, hb] at ih ⊢
      exact ih

theorem nodeHeat_applyCalls_fold (key : String) :
    ∀ (calls : List (ℚ × ℤ)) (ns : List (String × Node)),
      nodeHeat (calls.foldl (fun ns c => updateNodeHeat ns key c.1 c.2) ns)
          key =
        calls.foldl (fun h c => heatUpd h c.1) (nodeHeat ns key) := by
  intro calls
  induction calls with
  | nil => intro ns; rfl
  | cons c rest ih =>
    intro ns
    rw [List.foldl_cons, List.foldl_cons, ← nodeHeat_updateNodeHeat ns key c.1 c.2]
    exact ih _

theorem heatFold_le_one :
    ∀ (calls : List (ℚ × ℤ)) (h0 : Option ℚ), (∀ c ∈ calls, c.1 ≤ 1) →
      (∀ x, h0 = some x → x ≤ 1) →
      ∀ x, calls.foldl (fun h c => heatUpd h c.1) h0 = some x → x ≤ 1 := by
  intro calls
  induction calls with
  | nil => intro h0 _ hinv x hx; exact hinv x hx
  | cons c rest ih =>
    intro h0 hc hinv x hx
    refine ih (heatUpd h0 c.1)
      (fun d hd => hc d (List.mem_cons_of_mem _ hd)) ?_ x hx
    intro y hy
    have hc1 : c.1 ≤ 1 := hc c (List.mem_cons_self _ _)
    cases h0 with
    | none =>
      simp [heatUpd] at hy
      exact hy ▸ hc1
    | some z =>
      simp [heatUpd] at hy
      subst hy
      exact min_le_left _ _

/-- Counterexample to C4 as stated: a single `updateNodeHeat` call with
increment 2.0 creates the node with heat 2.0 — the creation branch does
not clamp — so the heat after the call exceeds 1.0. -/
theorem updateNodeHeat_unclamped_creation :
    nodeHeat (applyNodeCalls "a" [((2 : ℚ), (0 : ℤ))]) "a" = some 2 ∧
      ¬ ((2 : ℚ) ≤ 1) :=
  ⟨rfl, by norm_num⟩

/-- C4 (amended): for every sequence of `updateNodeHeat` calls on one
key in which every increment is at most 1.0 (the source's only call site
uses the default 0.1), the heat after each call is at most 1.0, and
across calls with positive increments the heat never decreases. -/
theorem updateNodeHeat_clamped_monotone :
    ∀ (key : String) (calls : List (ℚ × ℤ)), (∀ c ∈ calls, c.1 ≤ 1) →
      (∀ pre suff, calls = pre ++ suff →
          ∀ h, nodeHeat (applyNodeCalls key pre) key = some h → h ≤ 1)
      ∧ (∀ pre c suff, calls = pre ++ c :: suff → 0 < c.1 →
          ∀ h h', nodeHeat (applyNodeCalls key pre) key = some h →
            nodeHeat (applyNodeCalls key (pre ++ [c])) key = some h' →
              h ≤ h') := by
  intro key calls hc
  have hbound : ∀ pre suff, calls = pre ++ suff →
      ∀ h, nodeHeat (applyNodeCalls key pre) key = some h → h ≤ 1 := by
    intro pre suff heq h hh
    have hpre : ∀ c ∈ pre, c.1 ≤ 1 := by
      intro c hcm
      exact hc c (heq ▸ List.mem_append_left suff hcm)
    rw [applyNodeCalls, nodeHeat_applyCalls_fold key pre []] at hh
    exact heatFold_le_one pre (nodeHeat [] key) hpre
      (by intro x hx; cases hx) h hh
  refine ⟨hbound, ?_⟩
  intro pre c suff heq hpos h h' hh hh'
  have hle1 : h ≤ 1 := hbound pre (c :: suff) heq h hh
  have hh2 : nodeHeat (applyNodeCalls key (pre ++ [c])) key =
      heatUpd (some h) c.1 := by
    rw [applyNodeCalls, List.foldl_append, List.foldl_cons, List.foldl_nil,
      nodeHeat_updateNodeHeat]
    rw [applyNodeCalls] at hh
    rw [hh]
  rw [hh2] at hh'
  simp [heatUpd] at hh'
  subst hh'
  exact le_min hle1 (by linarith)

/-- Witness for C4 (amended): two calls with the source's default
increment 0.1. -/
theorem updateNodeHeat_clamped_monotone_witness :
    (∀ c ∈ [((1 : ℚ)/10, (0 : ℤ)), ((1 : ℚ)/10, (1 : ℤ))], c.1 ≤ 1) ∧
      ((∀ pre suff,
          [((1 : ℚ)/10, (0 : ℤ)), ((1 : ℚ)/10, (1 : ℤ))] = pre ++ suff →
            ∀ h, nodeHeat (applyNodeCalls "a" pre) "a" = some h → h ≤ 1)
        ∧ (∀ pre c suff,
            [((1 : ℚ)/10, (0 : ℤ)), ((1 : ℚ)/10, (1 : ℤ))] =
                pre ++ c :: suff → 0 < c.1 →
              ∀ h h', nodeHeat (applyNodeCalls "a" pre) "a" = some h →
                nodeHeat (applyNodeCalls "a" (pre ++ [c])) "a" = some h' →
                  h ≤ h')) :=
  ⟨by intro c hcm; fin_cases hcm <;> norm_num,
   updateNodeHeat_clamped_monotone "a" _
     (by intro c hcm; fin_cases hcm <;> norm_num)⟩

/-- C8: `detectIntent` tests the five category patterns in the fixed
priority order debug, implementation, research, documentation, planning
(first match wins, `"general"` when none matches); on the text
`"how do I debug the path tracking issue?"` it yields `"debug"`, and
`analyzeIntent` of that text reports both the `"question"` and the
`"problem-solving"` signal. -/
theorem detectIntent_priority_order :
    (∀ input : String,
        detectIntent input =
          ((intentPatterns.find?
              (fun pr => matchesAny pr.2 (toLowerStr input))).map
            Prod.fst).getD "general")
    ∧ detectIntent "how do I debug the path tracking issue?" = "debug"
    ∧ "question" ∈
        (analyzeIntent "how do I debug the path tracking issue?").signals
    ∧ "problem-solving" ∈
        (analyzeIntent "how do I debug the path tracking issue?").signals := by
  refine ⟨?_, by decide, by decide, by decide⟩
  intro input
  unfold detectIntent intentPatterns
  cases h1 : matchesAny debugKeywords (toLowerStr input) <;>
    cases h2 : matchesAny implementationKeywords (toLowerStr input) <;>
    cases h3 : matchesAny researchKeywords (toLowerStr input) <;>
    cases h4 : matchesAny documentationKeywords (toLowerStr input) <;>
    cases h5 : matchesAny planningKeywords (toLowerStr input) <;>
    simp [List.find?, h1, h2, h3, h4, h5]

theorem scorePath_fst (pi inp : String) (p : KnowledgePath) :
    (scorePath pi inp p).1 = specScore pi inp p := by
  simp only [scorePath, specScore, overlapCount, gt_iff_lt, ge_iff_le]
  split_ifs <;> simp <;> ring

theorem relStep_foldl (pi inp : String) :
    ∀ (l : List KnowledgePath) (acc : List ScoredPath),
      l.foldl (relStep pi inp) acc =
        acc ++ (l.filter
            (fun p => decide (1/2 < p.success) &&
              decide (3/10 ≤ specScore pi inp p))).map
          (fun p =>
            { path := p, relevance := specScore pi inp p
              matchReasons := specReasons pi inp p }) := by
  intro l
  induction l with
  | nil => intro acc; simp
  | cons p l ih =>
    intro acc
    rw [List.foldl_cons, ih]
    by_cases hs : p.success ≤ 1/2
    · have hstep : relStep pi inp acc p = acc := by
        unfold relStep
        rw [if_pos hs]
      have hs2 : ¬((2 : ℚ)⁻¹ < p.success ∧ 3/10 ≤ specScore pi inp p) := by
        rintro ⟨hcon, -⟩
        rw [← one_div] at hcon
        exact absurd hcon (not_lt.mpr hs)
      rw [hstep, List.filter_cons]
      simp [hs2]
    · by_cases hsc : 3/10 ≤ specScore pi inp p
      · have hstep : relStep pi inp acc p =
            acc ++ [{ path := p, relevance := specScore pi inp p
                      matchReasons := specReasons pi inp p }] := by
          unfold relStep
          rw [if_neg hs]
          simp only [ge_iff_le, scorePath_fst]
          rw [if_pos hsc]
          simp [specReasons]
        have hs3 : (2 : ℚ)⁻¹ < p.success := by
          rw [← one_div]
          exact not_le.mp hs
        rw [hstep, List.filter_cons]
        simp [hs3, hsc, List.append_assoc]
      · have hstep : relStep pi inp acc p = acc := by
          unfold relStep
          rw [if_neg hs]
          simp only [ge_iff_le, scorePath_fst]
          rw [if_neg hsc]
        rw [hstep, List.filter_cons]
        simp [hsc]

/-- C1: `findRelevantPaths` realises the specified ranking: it keeps
exactly the stored paths with `success > 0.5` whose composite score —
the sum of 1.0 for an exact intent match, 0.8 × the case-insensitive
edit-distance similarity when above 0.3, 0.6 × the word-set overlap
ratio when the intersection is non-empty, and 0.5 for a category match
when the primary intent is not `"general"` — is at least 0.3, annotates
each with that score, and returns them sorted in descending order of
score. -/
theorem findRelevantPaths_matches_spec :
    ∀ (primaryIntent input : String) (heatPaths : List KnowledgePath),
      findRelevantPaths primaryIntent input heatPaths =
          specRank primaryIntent input heatPaths
        ∧ List.Sorted scoreDesc
            (findRelevantPaths primaryIntent input heatPaths) := by
  intro pi inp l
  constructor
  · unfold findRelevantPaths specRank
    rw [relStep_foldl pi inp l [], List.nil_append]
  · unfold findRelevantPaths
    exact List.sorted_insertionSort scoreDesc _

end Mercury
